/-
Verification of the PrivacyMagic OPRF core against its specification.

This file gives a shallow embedding, in Lean 4, of the parts of the C++
source that the specification's claims are about:

* `src/OPRFTools/DH/common.h` — `mod_pow`, `is_prime`, `is_primitive_root`,
  `generate_primitive_root`, `generate_public_key`, `compute_shared_secret`,
  `byteToHexString`;
* `src/OPRFTools/PRF_AES.cpp` — the AES-family block cipher (`sub_byte`,
  `shift_rows`, `mix_columns`, `key_expansion`, `add_round_key`,
  `aes_encrypt`) and the chained PRF `PRF_AES::evaluate`;
* `src/HashTools/SHA256.hpp` — the SHA-256 implementation and the lossy
  `toString_32` formatting step used for key derivation;
* `src/SocketTools/Client_Sender.hpp` / `Server_Receiver.hpp` — the
  byte-order helpers `custom_htonll` / `custom_ntohll` and the array
  message framing (8-byte count prefix, raw payload, completion marker);
* `src/OPRFTools/DH/DH_Receiver.hpp` — the responder's validation and run
  sequencing.

Machine integers are modelled as `Nat` with explicit `% 2^w` where the C++
code can wrap; C++ `while` loops are modelled as structurally recursive
functions with an explicit fuel argument whose initial value is chosen to
dominate the loop's iteration count (each such choice is noted where the
fuel is instantiated), so that every definition is executable by kernel
reduction.  Fallible operations return `Option`.
-/

import Mathlib

set_option maxRecDepth 10000

namespace PrivacyMagic

/-! ## Number-theoretic primitives (src/OPRFTools/DH/common.h) -/

/-- One `while (exponent > 0)` iteration chain of `mod_pow`
(common.h lines 18–37), with fuel.  The loop body: if the exponent is odd,
fold `base` into `result` mod `m`; then halve the exponent and square the
base mod `m`.  The fuel only bounds the iteration count; `mod_pow` passes
`exponent` itself, which dominates the number of halvings. -/
def mod_pow_loop : Nat → Nat → Nat → Nat → Nat → Nat
  | 0, result, _, _, _ => result
  | fuel + 1, result, base, exponent, m =>
    if 0 < exponent then
      mod_pow_loop fuel
        (if exponent % 2 = 1 then result * base % m else result)
        (base * base % m) (exponent / 2) m
    else result

/-- `mod_pow(base, exponent, mod)` from common.h: square-and-multiply,
starting from `result = 1` and `base % mod`. -/
def mod_pow (base exponent m : Nat) : Nat :=
  mod_pow_loop exponent 1 (base % m) exponent m

/-- The `for (i = 5; i * i <= n; i += 6)` trial-division loop of `is_prime`
(common.h lines 52–57), with fuel (`is_prime` passes `n`, which dominates
the roughly `sqrt n / 6` iterations). -/
def is_prime_loop : Nat → Nat → Nat → Bool
  | 0, _, _ => true
  | fuel + 1, n, i =>
    if i * i ≤ n then
      if n % i = 0 || n % (i + 2) = 0 then false
      else is_prime_loop fuel n (i + 6)
    else true

/-- `is_prime(n)` from common.h lines 40–58: trial division by 2, 3 and
then `6k ± 1` candidates up to `sqrt n`. -/
def is_prime (n : Nat) : Bool :=
  if n ≤ 1 then false
  else if n ≤ 3 then true
  else if n % 2 = 0 || n % 3 = 0 then false
  else is_prime_loop n n 5

/-- The `while (phi % i == 0) phi /= i` inner loop of `is_primitive_root`
(common.h lines 90–91), with fuel (callers pass the current `phi`, which
dominates the number of divisions since `i ≥ 2`). -/
def remove_factor : Nat → Nat → Nat → Nat
  | 0, phi, _ => phi
  | fuel + 1, phi, i => if phi % i = 0 then remove_factor fuel (phi / i) i else phi

/-- The check performed after the factoring loop of `is_primitive_root`
(common.h lines 95–99): if a factor `phi > 1` remains, `g` fails when
`g ^ phi ≡ 1 (mod p)`. -/
def ipr_tail (g p phi : Nat) : Bool :=
  if 1 < phi then !(mod_pow g phi p == 1) else true

/-- The `for (i = 2; i * i <= phi; i++)` factoring loop of
`is_primitive_root` (common.h lines 84–99), with fuel
(`is_primitive_root` passes `p - 1`, which dominates the at most
`sqrt (p-1)` increments of `i`).  Note that the source mutates `phi`
inside the loop, so later exponents `phi / i` are computed from the
already-reduced `phi`, not from `p - 1`. -/
def ipr_loop (g p : Nat) : Nat → Nat → Nat → Bool
  | 0, phi, _ => ipr_tail g p phi
  | fuel + 1, phi, i =>
    if i * i ≤ phi then
      if phi % i = 0 then
        if mod_pow g (phi / i) p = 1 then false
        else ipr_loop g p fuel (remove_factor phi phi i) (i + 1)
      else ipr_loop g p fuel phi (i + 1)
    else ipr_tail g p phi

/-- `is_primitive_root(g, p)` from common.h lines 77–102. -/
def is_primitive_root (g p : Nat) : Bool :=
  if p ≤ g then false
  else ipr_loop g p (p - 1) (p - 1) 2

/-- The `for (g = 2; g < p; g++)` scan of `generate_primitive_root`
(common.h lines 110–116), with fuel (`generate_primitive_root` passes `p`,
which dominates the at most `p - 2` candidates).  Returns `-1` when the
scan is exhausted, as the source does. -/
def gpr_loop (p : Nat) : Nat → Nat → Int
  | 0, _ => -1
  | fuel + 1, g =>
    if g < p then
      if is_primitive_root g p then (g : Int) else gpr_loop p fuel (g + 1)
    else -1

/-- `generate_primitive_root(p)` from common.h lines 105–118. -/
def generate_primitive_root (p : Nat) : Int :=
  if p = 2 then 1 else gpr_loop p p 2

/-- `generate_public_key(private_key, g, p)` from common.h lines 128–131. -/
def generate_public_key (private_key g p : Nat) : Nat :=
  mod_pow g private_key p

/-- `compute_shared_secret(received_public, private_key, p)` from
common.h lines 134–137. -/
def compute_shared_secret (received_public private_key p : Nat) : Nat :=
  mod_pow received_public private_key p

/-- The set of values `generate_prime(min, max)` (common.h lines 61–74) can
return: a candidate is drawn from `[min, max]`, incremented if even, and
accepted once `is_prime` holds.  The function loops on randomness, so we
characterise its possible outputs rather than the sampling. -/
def generate_prime_can_output (min max p : Nat) : Prop :=
  is_prime p = true ∧
    ∃ cand, min ≤ cand ∧ cand ≤ max ∧ p = (if cand % 2 = 0 then cand + 1 else cand)

/-! ### Basic facts about `mod_pow` and `is_prime` -/

theorem mod_pow_loop_eq (m : Nat) (hm : 2 ≤ m) :
    ∀ fuel exponent result base, exponent ≤ fuel → result < m →
      mod_pow_loop fuel result base exponent m = result * base ^ exponent % m := by
  intro fuel
  induction fuel with
  | zero =>
    intro exponent result base he hr
    interval_cases exponent
    simp [mod_pow_loop, Nat.mod_eq_of_lt hr]
  | succ fuel ih =>
    intro exponent result base he hr
    by_cases hpos : 0 < exponent
    · have hhalf : exponent / 2 ≤ fuel := by omega
      rcases Nat.even_or_odd exponent with hev | hod
      · have h2 : exponent % 2 = 0 := Nat.even_iff.mp hev
        have hsplit : exponent = 2 * (exponent / 2) := by omega
        rw [mod_pow_loop, if_pos hpos, if_neg (by omega),
          ih (exponent / 2) result (base * base % m) hhalf hr,
          Nat.mul_mod, ← Nat.pow_mod, ← Nat.mul_mod]
        conv_rhs => rw [hsplit, pow_mul, pow_two]
      · have h2 : exponent % 2 = 1 := Nat.odd_iff.mp hod
        have hsplit : exponent = 2 * (exponent / 2) + 1 := by omega
        rw [mod_pow_loop, if_pos hpos, if_pos h2,
          ih (exponent / 2) (result * base % m) (base * base % m) hhalf
            (Nat.mod_lt _ (by omega)),
          Nat.mul_mod, Nat.mod_mod, ← Nat.pow_mod, ← Nat.mul_mod]
        conv_rhs => rw [hsplit, pow_succ, pow_mul, pow_two]
        congr 1
        ring
    · have h0 : exponent = 0 := by omega
      subst h0
      simp [mod_pow_loop, Nat.mod_eq_of_lt hr]

/-- For any modulus `m ≥ 2`, `mod_pow` computes `base ^ exponent % m`. -/
theorem mod_pow_eq (base exponent m : Nat) (hm : 2 ≤ m) :
    mod_pow base exponent m = base ^ exponent % m := by
  rw [mod_pow, mod_pow_loop_eq m hm exponent exponent 1 (base % m) le_rfl (by omega),
    one_mul, ← Nat.pow_mod]

theorem is_prime_two_le {n : Nat} (h : is_prime n = true) : 2 ≤ n := by
  by_contra hlt
  rw [is_prime, if_pos (by omega)] at h
  exact Bool.false_ne_true h

/-- If the `6k ± 1` trial-division loop succeeds and has enough fuel to pass
`sqrt n`, then no candidate of the form `6k + 5` or `6k + 1` at or beyond the
starting index divides `n`. -/
theorem is_prime_loop_no_divisor :
    ∀ fuel n i, i % 6 = 5 → n < (i + 6 * fuel) * (i + 6 * fuel) →
      is_prime_loop fuel n i = true →
      ∀ j, i ≤ j → j * j ≤ n → (j % 6 = 5 ∨ j % 6 = 1) → ¬ j ∣ n := by
  intro fuel
  induction fuel with
  | zero =>
    intro n i hi hbound _ j hij hjj _ _
    simp only [Nat.mul_zero, Nat.add_zero] at hbound
    have := Nat.mul_le_mul hij hij
    omega
  | succ fuel ih =>
    intro n i hi hbound hloop j hij hjj hj6 hdvd
    by_cases hin : i * i ≤ n
    · rw [is_prime_loop, if_pos hin] at hloop
      by_cases hmod : (n % i = 0 || n % (i + 2) = 0) = true
      · rw [if_pos hmod] at hloop
        exact Bool.false_ne_true hloop
      · rw [if_neg hmod] at hloop
        simp only [Bool.or_eq_true, decide_eq_true_eq, not_or] at hmod
        by_cases hnear : j < i + 6
        · have hcase : j = i ∨ j = i + 2 := by omega
          have : n % j = 0 := Nat.mod_eq_zero_of_dvd hdvd
          rcases hcase with rfl | rfl
          · exact hmod.1 this
          · exact hmod.2 this
        · have hbound' : n < (i + 6 + 6 * fuel) * (i + 6 + 6 * fuel) := by
            have harith : i + 6 + 6 * fuel = i + 6 * (fuel + 1) := by omega
            rw [harith]
            exact hbound
          exact ih n (i + 6) (by omega) hbound' hloop j (by omega) hjj hj6 hdvd
    · have := Nat.mul_le_mul hij hij
      omega

/-- Soundness of the source's trial-division primality test: whenever
`is_prime n` returns `true`, `n` really is prime. -/
theorem is_prime_prime {n : Nat} (h : is_prime n = true) : Nat.Prime n := by
  have hn2 : 2 ≤ n := is_prime_two_le h
  by_cases hn3 : n ≤ 3
  · interval_cases n
    · decide
    · decide
  · rw [is_prime, if_neg (by omega), if_neg (by omega)] at h
    by_cases hmod : (n % 2 = 0 || n % 3 = 0) = true
    · rw [if_pos hmod] at h
      exact absurd h Bool.false_ne_true
    · rw [if_neg hmod] at h
      simp only [Bool.or_eq_true, decide_eq_true_eq, not_or] at hmod
      refine Nat.prime_def_le_sqrt.mpr ⟨hn2, ?_⟩
      intro m hm hsqrt hdvd
      have hm1 : m ≠ 1 := by omega
      have hq : Nat.Prime (Nat.minFac m) := Nat.minFac_prime hm1
      have hqd : Nat.minFac m ∣ n := (Nat.minFac_dvd m).trans hdvd
      have hqm : Nat.minFac m ≤ m := Nat.minFac_le (by omega)
      have hqq : Nat.minFac m * Nat.minFac m ≤ n :=
        Nat.le_sqrt.mp (le_trans hqm hsqrt)
      set q := Nat.minFac m with hqdef
      have hq2 : q ≠ 2 := by
        intro h2
        rw [h2] at hqd
        exact hmod.1 (Nat.mod_eq_zero_of_dvd hqd)
      have hq3 : q ≠ 3 := by
        intro h3
        rw [h3] at hqd
        exact hmod.2 (Nat.mod_eq_zero_of_dvd hqd)
      have hq4 : q ≠ 4 := by
        intro h4
        rw [h4] at hq
        exact absurd hq (by decide)
      have hq5 : 5 ≤ q := by
        have := hq.two_le
        omega
      have hqodd : q % 2 ≠ 0 := by
        intro he
        have h2q : 2 ∣ q := Nat.dvd_of_mod_eq_zero he
        rcases (Nat.Prime.eq_one_or_self_of_dvd hq 2 h2q) with h21 | h2q'
        · omega
        · omega
      have hq3' : q % 3 ≠ 0 := by
        intro he
        have h3q : 3 ∣ q := Nat.dvd_of_mod_eq_zero he
        rcases (Nat.Prime.eq_one_or_self_of_dvd hq 3 h3q) with h31 | h3q'
        · omega
        · omega
      have hq6 : q % 6 = 5 ∨ q % 6 = 1 := by omega
      have hbig : n < (5 + 6 * n) * (5 + 6 * n) := by nlinarith
      exact is_prime_loop_no_divisor n n 5 (by omega) hbig h q hq5 hqq hq6 hqd

/-- Soundness of the candidate scan: when `gpr_loop` returns a non-negative
value, that value passed `is_primitive_root`, is at least the starting
candidate, and is below `p`. -/
theorem gpr_loop_sound :
    ∀ fuel g0 p (g : Int), gpr_loop p fuel g0 = g → 0 ≤ g →
      is_primitive_root g.toNat p = true ∧ g0 ≤ g.toNat ∧ g.toNat < p := by
  intro fuel
  induction fuel with
  | zero =>
    intro g0 p g hg hge
    rw [gpr_loop] at hg
    rw [← hg] at hge
    exact absurd hge (by decide)
  | succ fuel ih =>
    intro g0 p g hg hge
    rw [gpr_loop] at hg
    by_cases h1 : g0 < p
    · rw [if_pos h1] at hg
      by_cases h2 : is_primitive_root g0 p = true
      · rw [if_pos h2] at hg
        rw [← hg]
        simpa using ⟨h2, h1⟩
      · rw [if_neg h2] at hg
        obtain ⟨ht, hge', hlt⟩ := ih (g0 + 1) p g hg hge
        exact ⟨ht, by omega, hlt⟩
    · rw [if_neg h1] at hg
      rw [← hg] at hge
      exact absurd hge (by decide)

/-- When `generate_primitive_root p` returns a non-negative value `g` (for
`p ≠ 2`), `g` passed the source's `is_primitive_root` test and lies in
`[2, p)`. -/
theorem generate_primitive_root_sound {p : Nat} {g : Int} (hp : p ≠ 2)
    (hg : generate_primitive_root p = g) (hge : 0 ≤ g) :
    is_primitive_root g.toNat p = true ∧ 2 ≤ g.toNat ∧ g.toNat < p := by
  rw [generate_primitive_root, if_neg hp] at hg
  exact gpr_loop_sound p 2 p g hg hge

/-- C3: DH handshake correctness.  For every prime `p` accepted by the
source's `is_prime`, every `g` accepted by the source's
`is_primitive_root`, and private exponents `a, b ∈ [2, p-2]`, the two
sides' shared-secret computations agree:
`compute_shared_secret(mod_pow(g,a,p), b, p) =
 compute_shared_secret(mod_pow(g,b,p), a, p)`. -/
theorem dh_shared_secret_agreement (p g a b : Nat)
    (hp : is_prime p = true) (hg : is_primitive_root g p = true)
    (ha1 : 2 ≤ a) (ha2 : a ≤ p - 2) (hb1 : 2 ≤ b) (hb2 : b ≤ p - 2) :
    compute_shared_secret (mod_pow g a p) b p
      = compute_shared_secret (mod_pow g b p) a p := by
  have hp2 : 2 ≤ p := is_prime_two_le hp
  rw [compute_shared_secret, compute_shared_secret,
    mod_pow_eq _ _ _ hp2, mod_pow_eq _ _ _ hp2, mod_pow_eq _ _ _ hp2,
    mod_pow_eq _ _ _ hp2, ← Nat.pow_mod, ← Nat.pow_mod, ← pow_mul, ← pow_mul,
    Nat.mul_comm]

/-- Witness for `dh_shared_secret_agreement`: Scenario A of the spec,
`p = 10007`, `g = 5` (accepted by the source's primitive-root test),
`a = 6`, `b = 15`. -/
theorem dh_shared_secret_agreement_witness :
    is_prime 10007 = true ∧ is_primitive_root 5 10007 = true ∧
      compute_shared_secret (mod_pow 5 6 10007) 15 10007
        = compute_shared_secret (mod_pow 5 15 10007) 6 10007 :=
  ⟨by decide, by decide,
    dh_shared_secret_agreement 10007 5 6 15 (by decide) (by decide)
      (by decide) (by decide) (by decide) (by decide)⟩

/-- C6 counterexample: `p = 10009` is a possible output of
`generate_prime(10000, 50000)`, the source's `generate_primitive_root`
returns `g = 7` for it, yet with the in-range private exponent `x = 1112`
the public value `mod_pow(7, 1112, 10009)` equals `1`, so it does NOT lie
strictly between 1 and `p` (the source's `is_primitive_root` accepts 7
even though its multiplicative order modulo 10009 is only 1112). -/
theorem generated_root_public_value_can_equal_one :
    generate_prime_can_output 10000 50000 10009 ∧
      generate_primitive_root 10009 = 7 ∧
      2 ≤ 1112 ∧ 1112 ≤ 10009 - 2 ∧
      mod_pow 7 1112 10009 = 1 ∧
      ¬ 1 < mod_pow 7 1112 10009 :=
  ⟨⟨by decide, 10009, by decide, by decide, by decide⟩,
    by decide, by decide, by decide, by decide, by decide⟩

/-- C6 (amended): for every `(p, g)` pair produced by `generate_prime` over
`[10000, 50000]` followed by `generate_primitive_root` (returning a
non-negative `g`), the pair passes `is_primitive_root`, and for every
private exponent `x ∈ [2, p-2]` the public value satisfies
`0 < mod_pow(g, x, p) < p`; the originally claimed strict lower bound
`1 < mod_pow(g, x, p)` is refuted by
`generated_root_public_value_can_equal_one`. -/
theorem generated_root_public_value_in_range (p x : Nat) (g : Int)
    (hp : generate_prime_can_output 10000 50000 p)
    (hg : generate_primitive_root p = g) (hge : 0 ≤ g)
    (hx1 : 2 ≤ x) (hx2 : x ≤ p - 2) :
    is_primitive_root g.toNat p = true ∧
      0 < mod_pow g.toNat x p ∧ mod_pow g.toNat x p < p := by
  obtain ⟨hprime, cand, hc1, hc2, hc3⟩ := hp
  have hP : Nat.Prime p := is_prime_prime hprime
  have hp2 : 2 ≤ p := hP.two_le
  have hbig : 10000 ≤ p := by
    by_cases hcand : cand % 2 = 0 <;> simp [hcand] at hc3 <;> omega
  obtain ⟨htest, hg2, hgp⟩ := generate_primitive_root_sound (by omega) hg hge
  refine ⟨htest, ?_, ?_⟩
  · rw [mod_pow_eq _ _ _ hp2]
    by_contra h0
    have hz : g.toNat ^ x % p = 0 := by omega
    have hdvd : p ∣ g.toNat ^ x := Nat.dvd_of_mod_eq_zero hz
    have hdg : p ∣ g.toNat := hP.dvd_of_dvd_pow hdvd
    have := Nat.le_of_dvd (by omega) hdg
    omega
  · rw [mod_pow_eq _ _ _ hp2]
    exact Nat.mod_lt _ (by omega)

/-- Witness for `generated_root_public_value_in_range`, at the same
concrete pair `p = 10009`, `g = 7`, `x = 1112`: the public value is `1`,
inside `(0, p)` but not above 1. -/
theorem generated_root_public_value_in_range_witness :
    is_primitive_root 7 10009 = true ∧
      0 < mod_pow 7 1112 10009 ∧ mod_pow 7 1112 10009 < 10009 :=
  generated_root_public_value_in_range 10009 1112 7
    ⟨by decide, 10009, by decide, by decide, by decide⟩
    (by decide) (by decide) (by decide) (by decide)

/-- C10: `mod_pow` returns `1` whenever the exponent is `0`, for every
modulus `m ≥ 1` — including `m = 1`, where the mathematically reduced
value `base ^ 0 % 1` is `0`; the invariant that the result is strictly
below the modulus holds for every `m ≥ 2`, but fails at `m = 1` with
exponent `0`. -/
theorem mod_pow_zero_exponent_behaviour :
    (∀ base m : Nat, 1 ≤ m → mod_pow base 0 m = 1) ∧
      (∀ base e m : Nat, 2 ≤ m → mod_pow base e m < m) ∧
      mod_pow 5 0 1 = 1 ∧ 5 ^ 0 % 1 = 0 ∧ ¬ mod_pow 5 0 1 < 1 := by
  refine ⟨fun base m _ => rfl, fun base e m hm => ?_, by decide, by decide, by decide⟩
  rw [mod_pow_eq _ _ _ hm]
  exact Nat.mod_lt _ (by omega)

/-- Witness for `mod_pow_zero_exponent_behaviour` at concrete inputs. -/
theorem mod_pow_zero_exponent_behaviour_witness :
    1 ≤ 7 ∧ 2 ≤ 7 ∧ mod_pow 3 0 7 = 1 ∧ mod_pow 3 5 7 < 7 :=
  ⟨by decide, by decide, mod_pow_zero_exponent_behaviour.1 3 7 (by decide),
    mod_pow_zero_exponent_behaviour.2.1 3 5 7 (by decide)⟩

/-! ## AES block cipher (src/OPRFTools/PRF_AES.cpp) -/

/-- The AES substitution box (PRF_AES.cpp lines 22–38). -/
def sbox : List Nat :=
  [0x63, 0x7c, 0x77, 0x7b, 0xf2, 0x6b, 0x6f, 0xc5, 0x30, 0x01, 0x67, 0x2b, 0xfe, 0xd7, 0xab, 0x76,
   0xca, 0x82, 0xc9, 0x7d, 0xfa, 0x59, 0x47, 0xf0, 0xad, 0xd4, 0xa2, 0xaf, 0x9c, 0xa4, 0x72, 0xc0,
   0xb7, 0xfd, 0x93, 0x26, 0x36, 0x3f, 0xf7, 0xcc, 0x34, 0xa5, 0xe5, 0xf1, 0x71, 0xd8, 0x31, 0x15,
   0x04, 0xc7, 0x23, 0xc3, 0x18, 0x96, 0x05, 0x9a, 0x07, 0x12, 0x80, 0xe2, 0xeb, 0x27, 0xb2, 0x75,
   0x09, 0x83, 0x2c, 0x1a, 0x1b, 0x6e, 0x5a, 0xa0, 0x52, 0x3b, 0xd6, 0xb3, 0x29, 0xe3, 0x2f, 0x84,
   0x53, 0xd1, 0x00, 0xed, 0x20, 0xfc, 0xb1, 0x5b, 0x6a, 0xcb, 0xbe, 0x39, 0x4a, 0x4c, 0x58, 0xcf,
   0xd0, 0xef, 0xaa, 0xfb, 0x43, 0x4d, 0x33, 0x85, 0x45, 0xf9, 0x02, 0x7f, 0x50, 0x3c, 0x9f, 0xa8,
   0x51, 0xa3, 0x40, 0x8f, 0x92, 0x9d, 0x38, 0xf5, 0xbc, 0xb6, 0xda, 0x21, 0x10, 0xff, 0xf3, 0xd2,
   0xcd, 0x0c, 0x13, 0xec, 0x5f, 0x97, 0x44, 0x17, 0xc4, 0xa7, 0x7e, 0x3d, 0x64, 0x5d, 0x19, 0x73,
   0x60, 0x81, 0x4f, 0xdc, 0x22, 0x2a, 0x90, 0x88, 0x46, 0xee, 0xb8, 0x14, 0xde, 0x5e, 0x0b, 0xdb,
   0xe0, 0x32, 0x3a, 0x0a, 0x49, 0x06, 0x24, 0x5c, 0xc2, 0xd3, 0xac, 0x62, 0x91, 0x95, 0xe4, 0x79,
   0xe7, 0xc8, 0x37, 0x6d, 0x8d, 0xd5, 0x4e, 0xa9, 0x6c, 0x56, 0xf4, 0xea, 0x65, 0x7a, 0xae, 0x08,
   0xba, 0x78, 0x25, 0x2e, 0x1c, 0xa6, 0xb4, 0xc6, 0xe8, 0xdd, 0x74, 0x1f, 0x4b, 0xbd, 0x8b, 0x8a,
   0x70, 0x3e, 0xb5, 0x66, 0x48, 0x03, 0xf6, 0x0e, 0x61, 0x35, 0x57, 0xb9, 0x86, 0xc1, 0x1d, 0x9e,
   0xe1, 0xf8, 0x98, 0x11, 0x69, 0xd9, 0x8e, 0x94, 0x9b, 0x1e, 0x87, 0xe9, 0xce, 0x55, 0x28, 0xdf,
   0x8c, 0xa1, 0x89, 0x0d, 0xbf, 0xe6, 0x42, 0x68, 0x41, 0x99, 0x2d, 0x0f, 0xb0, 0x54, 0xbb, 0x16]

/-- `sub_byte` (PRF_AES.cpp lines 19–42): S-box lookup. -/
def sub_byte (b : Nat) : Nat := sbox.getD b 0

/-- The AES round-constant table `RCON` (PRF_AES.cpp line 7). -/
def RCON : List Nat := [0x8d, 0x01, 0x02, 0x04, 0x08, 0x10, 0x20, 0x40, 0x80, 0x1b, 0x36]

/-- `std::swap(state[i], state[j])` on a 16-byte state list. -/
def lswap (s : List Nat) (i j : Nat) : List Nat :=
  (s.set i (s.getD j 0)).set j (s.getD i 0)

/-- `shift_rows` (PRF_AES.cpp lines 56–71): the source's nine `std::swap`
calls, in order (rows 1, 2, 3 of the column-major state). -/
def shift_rows (s : List Nat) : List Nat :=
  lswap (lswap (lswap (lswap (lswap (lswap (lswap (lswap s 1 5) 5 9) 9 13)
    2 10) 6 14) 15 11) 11 7) 7 3

/-- The eight fixed iterations of the `gmul` lambda inside `mix_columns`
(PRF_AES.cpp lines 95–109); `uint8_t` arithmetic is `% 256`. -/
def gmul_loop : Nat → Nat → Nat → Nat → Nat
  | 0, _, _, p => p
  | fuel + 1, a, b, p =>
    let p2 := if b % 2 = 1 then p ^^^ a else p
    let hi := a &&& 0x80
    let a2 := (a <<< 1) % 256
    let a3 := if hi ≠ 0 then a2 ^^^ 0x1b else a2
    gmul_loop fuel a3 (b >>> 1) p2

/-- `gmul(a, b)`: multiplication in GF(2^8) with the AES polynomial, as the
source's 8-iteration loop. -/
def gmul (a b : Nat) : Nat := gmul_loop 8 a b 0

/-- One column transformation of `mix_columns` (PRF_AES.cpp lines 112–125):
reads the four column bytes, then overwrites them in place. -/
def mix_column_at (s : List Nat) (i : Nat) : List Nat :=
  let col := i * 4
  let s0 := s.getD col 0
  let s1 := s.getD (col + 1) 0
  let s2 := s.getD (col + 2) 0
  let s3 := s.getD (col + 3) 0
  ((((s.set col (gmul s0 2 ^^^ gmul s1 3 ^^^ s2 ^^^ s3)).set (col + 1)
    (s0 ^^^ gmul s1 2 ^^^ gmul s2 3 ^^^ s3)).set (col + 2)
    (s0 ^^^ s1 ^^^ gmul s2 2 ^^^ gmul s3 3)).set (col + 3)
    (gmul s0 3 ^^^ s1 ^^^ s2 ^^^ gmul s3 2))

/-- `mix_columns` (PRF_AES.cpp lines 83–126): apply `mix_column_at` to the
four columns in order. -/
def mix_columns (s : List Nat) : List Nat :=
  (List.range 4).foldl mix_column_at s

/-- The `RotWord` step of the key schedule (PRF_AES.cpp line 171):
`((temp << 8) | (temp >> 24)) & 0xFFFFFFFF`. -/
def rot_word (w : Nat) : Nat := ((w <<< 8) ||| (w >>> 24)) % 2 ^ 32

/-- The `SubWord` step of the key schedule (PRF_AES.cpp lines 172–176 and
184–188): `sub_byte` applied to each of the four bytes of the word. -/
def sub_word (w : Nat) : Nat :=
  sub_byte (w % 256) ||| (sub_byte (w / 2 ^ 8 % 256) <<< 8) |||
    (sub_byte (w / 2 ^ 16 % 256) <<< 16) ||| (sub_byte (w / 2 ^ 24 % 256) <<< 24)

/-- One iteration of the key-expansion loop (PRF_AES.cpp lines 164–192),
producing word `i` from the previous words, where `n` is the key length in
words. -/
def key_schedule_word (n : Nat) (rks : List Nat) (i : Nat) : Nat :=
  let temp := rks.getD (i - 1) 0
  let temp :=
    if i % n = 0 then
      sub_word (rot_word temp) ^^^ ((RCON.getD (i / n) 0) <<< 24)
    else if 6 < n ∧ i % n = 4 then sub_word temp
    else temp
  rks.getD (i - n) 0 ^^^ temp

/-- The word array produced by `key_expansion` (PRF_AES.cpp lines 141–193)
for a given round count: the first `n` words pack the key bytes big-endian,
the remaining `(rounds + 1) * 4 - n` words follow the expansion rule. -/
def aes_key_schedule (key : List Nat) (rounds : Nat) : List Nat :=
  let n := key.length / 4
  let total_words := (rounds + 1) * 4
  let init := (List.range n).map (fun i =>
    (key.getD (4 * i) 0 <<< 24) ||| (key.getD (4 * i + 1) 0 <<< 16) |||
      (key.getD (4 * i + 2) 0 <<< 8) ||| key.getD (4 * i + 3) 0)
  (List.range (total_words - n)).foldl
    (fun rks j => rks ++ [key_schedule_word n rks (n + j)]) init

/-- `key_expansion` (PRF_AES.cpp lines 141–193): 16-, 24- and 32-byte keys
give 10, 12 and 14 rounds; any other length throws
(`std::invalid_argument`), modelled as `none`. -/
def key_expansion (key : List Nat) : Option (List Nat × Nat) :=
  if key.length = 16 then some (aes_key_schedule key 10, 10)
  else if key.length = 24 then some (aes_key_schedule key 12, 12)
  else if key.length = 32 then some (aes_key_schedule key 14, 14)
  else none

/-- `add_round_key` (PRF_AES.cpp lines 206–220): XOR round key words
big-endian into the state columns. -/
def add_round_key (state rks : List Nat) (round : Nat) : List Nat :=
  (List.range 16).map (fun k =>
    state.getD k 0 ^^^
      ((rks.getD (round * 4 + k / 4) 0 >>> (24 - 8 * (k % 4))) &&& 0xFF))

/-- The main encryption loop of `aes_encrypt` (PRF_AES.cpp lines 256–275):
`for (round = 1; round < rounds; ++round)`, i.e. `rounds - 1` iterations,
counted down by `k` so that the executed round index is
`rounds - (k + 1)`; `mix_columns` runs when `round < rounds - 1`. -/
def aes_rounds (rks : List Nat) (rounds : Nat) : Nat → List Nat → List Nat
  | 0, state => state
  | k + 1, state =>
    let round := rounds - (k + 1)
    let state := state.map sub_byte
    let state := shift_rows state
    let state := if round < rounds - 1 then mix_columns state else state
    aes_rounds rks rounds k (add_round_key state rks round)

/-- `aes_encrypt` (PRF_AES.cpp lines 247–278): initial round-key addition,
then the source's main loop. -/
def aes_encrypt (rks : List Nat) (rounds : Nat) (input : List Nat) : List Nat :=
  aes_rounds rks rounds (rounds - 1) (add_round_key input rks 0)

/-- Modelled from the spec (§4.3): the published standard AES cipher —
initial round-key addition, then `rounds` full rounds of byte substitution,
row shifting, column mixing (omitted only on the final round) and
round-key mixing, consuming round keys `1 .. rounds`.  The executed round
index is `rounds - k` as `k` counts down. -/
def aes_std_rounds (rks : List Nat) (rounds : Nat) : Nat → List Nat → List Nat
  | 0, state => state
  | k + 1, state =>
    let round := rounds - k
    let state := state.map sub_byte
    let state := shift_rows state
    let state := if round < rounds then mix_columns state else state
    aes_std_rounds rks rounds k (add_round_key state rks round)

/-- Modelled from the spec (§4.3): full standard AES encryption over the
same key schedule. -/
def aes_encrypt_std (rks : List Nat) (rounds : Nat) (input : List Nat) : List Nat :=
  aes_std_rounds rks rounds rounds (add_round_key input rks 0)

/-- The AES-128 key of the FIPS-197 appendix C.1 example vector. -/
def fips_key : List Nat :=
  [0x00, 0x01, 0x02, 0x03, 0x04, 0x05, 0x06, 0x07,
   0x08, 0x09, 0x0a, 0x0b, 0x0c, 0x0d, 0x0e, 0x0f]

/-- The plaintext block of the FIPS-197 appendix C.1 example vector. -/
def fips_block : List Nat :=
  [0x00, 0x11, 0x22, 0x33, 0x44, 0x55, 0x66, 0x77,
   0x88, 0x99, 0xaa, 0xbb, 0xcc, 0xdd, 0xee, 0xff]

/-- C1: the source's cipher is NOT the published AES standard.  On the
FIPS-197 example key and block, the standard cipher (modelled from the
spec, and matching the published test vector `69c4e0d8...`) disagrees with
the source's `aes_encrypt`, which executes only `rounds - 1` rounds and
never consumes the last four expanded round-key words. -/
theorem aes_encrypt_not_standard :
    key_expansion fips_key = some (aes_key_schedule fips_key 10, 10) ∧
      aes_encrypt_std (aes_key_schedule fips_key 10) 10 fips_block =
        [0x69, 0xc4, 0xe0, 0xd8, 0x6a, 0x7b, 0x04, 0x30,
          0xd8, 0xcd, 0xb7, 0x80, 0x70, 0xb4, 0xc5, 0x5a] ∧
      aes_encrypt (aes_key_schedule fips_key 10) 10 fips_block =
        [0x00, 0x40, 0xa2, 0x70, 0x9b, 0x25, 0xcd, 0xdd,
          0x86, 0x28, 0x19, 0x92, 0x1f, 0x3d, 0xe7, 0x61] ∧
      aes_encrypt (aes_key_schedule fips_key 10) 10 fips_block ≠
        aes_encrypt_std (aes_key_schedule fips_key 10) 10 fips_block :=
  ⟨by decide, by decide, by decide, by decide⟩

/-! ## The chained PRF `PRF_AES::evaluate` (PRF_AES.cpp lines 343–379) -/

/-- The complete-block XOR of the accumulator with a 16-byte chunk
(PRF_AES.cpp lines 354–357). -/
def xor_full_block (block chunk : List Nat) : List Nat :=
  (List.range 16).map (fun i => block.getD i 0 ^^^ chunk.getD i 0)

/-- The final-block handling (PRF_AES.cpp lines 365–375): XOR the last
`rest.length` input bytes into the low accumulator positions, then XOR
`0x80` into the byte at index `rest.length`. -/
def xor_last_block (block rest : List Nat) : List Nat :=
  let r := rest.length
  let b := (List.range 16).map (fun i =>
    if i < r then block.getD i 0 ^^^ rest.getD i 0 else block.getD i 0)
  b.set r (b.getD r 0 ^^^ 0x80)

/-- The `while (pos + 16 <= input_len)` loop of `evaluate` followed by the
final-block branch (PRF_AES.cpp lines 351–376), with fuel
(`PRF_evaluate` passes `input.length`, which dominates the
`input.length / 16` iterations). -/
def prf_cbc_loop (enc : List Nat → List Nat) : Nat → List Nat → List Nat → List Nat
  | 0, block, input =>
    if input.length = 0 then block else enc (xor_last_block block input)
  | fuel + 1, block, input =>
    if 16 ≤ input.length then
      prf_cbc_loop enc fuel (enc (xor_full_block block (input.take 16))) (input.drop 16)
    else if input.length = 0 then block
    else enc (xor_last_block block input)

/-- `PRF_AES::evaluate` (PRF_AES.cpp lines 343–379), composed with the
constructor's key validation (lines 291–301): the accumulator starts as
sixteen zero bytes, and an invalid key length means the constructor throws
(`none`). -/
def PRF_evaluate (key input : List Nat) : Option (List Nat) :=
  match key_expansion key with
  | none => none
  | some (rks, rounds) =>
      some (prf_cbc_loop (aes_encrypt rks rounds) input.length (List.replicate 16 0) input)

/-- The list of complete 16-byte chunks of the input, in order. -/
def chunk_list (input : List Nat) : List (List Nat) :=
  if h : 16 ≤ input.length then input.take 16 :: chunk_list (input.drop 16) else []
termination_by input.length
decreasing_by simp [List.length_drop]; omega

/-- Modelled from the spec (§4.3): chain the accumulator through the
complete 16-byte chunks (XOR then encrypt, once per chunk), then, if a
partial chunk of `1..15` bytes remains, XOR it into the low positions, XOR
`0x80` at the index equal to its length, and encrypt exactly once more; an
exact multiple of 16 appends nothing. -/
def prf_chain_from (enc : List Nat → List Nat) (block input : List Nat) : List Nat :=
  if input.length % 16 = 0 then
    (chunk_list input).foldl (fun acc c => enc (xor_full_block acc c)) block
  else
    enc (xor_last_block
      ((chunk_list input).foldl (fun acc c => enc (xor_full_block acc c)) block)
      (input.drop (input.length - input.length % 16)))

/-- Modelled from the spec (§4.3): the whole chained construction, starting
from the all-zero 16-byte accumulator. -/
def prf_chain_spec (enc : List Nat → List Nat) (input : List Nat) : List Nat :=
  prf_chain_from enc (List.replicate 16 0) input

theorem chunk_list_nil_of_short {input : List Nat} (h : ¬ 16 ≤ input.length) :
    chunk_list input = [] := by
  rw [chunk_list, dif_neg h]

theorem chunk_list_cons_of_long {input : List Nat} (h : 16 ≤ input.length) :
    chunk_list input = input.take 16 :: chunk_list (input.drop 16) := by
  rw [chunk_list, dif_pos h]

/-- The source's position-based CBC loop computes exactly the spec's
chunk-fold-then-pad description, for any starting accumulator. -/
theorem prf_cbc_loop_eq_chain (enc : List Nat → List Nat) :
    ∀ fuel input block, input.length ≤ fuel →
      prf_cbc_loop enc fuel block input = prf_chain_from enc block input := by
  intro fuel
  induction fuel with
  | zero =>
    intro input block hlen
    have hnil : input = [] := List.length_eq_zero.mp (by omega)
    subst hnil
    rw [prf_cbc_loop, prf_chain_from]
    simp [chunk_list_nil_of_short]
  | succ fuel ih =>
    intro input block hlen
    by_cases h16 : 16 ≤ input.length
    · have hdlen : (input.drop 16).length = input.length - 16 := by
        simp [List.length_drop]
      rw [prf_cbc_loop, if_pos h16,
        ih (input.drop 16) (enc (xor_full_block block (input.take 16))) (by omega)]
      have hmod : (input.drop 16).length % 16 = input.length % 16 := by
        rw [hdlen]; omega
      have hdrop : (input.drop 16).drop
          ((input.drop 16).length - input.length % 16) =
          input.drop (input.length - input.length % 16) := by
        rw [hdlen, List.drop_drop]
        congr 1
        omega
      rw [prf_chain_from, prf_chain_from, hmod, hdrop,
        chunk_list_cons_of_long h16, List.foldl_cons]
    · rw [prf_cbc_loop, if_neg h16, prf_chain_from]
      by_cases h0 : input.length = 0
      · rw [if_pos h0, if_pos (by omega)]
        simp [chunk_list_nil_of_short h16]
      · rw [if_neg h0, if_neg (by omega)]
        have hmod : input.length % 16 = input.length := by omega
        rw [chunk_list_nil_of_short h16, hmod]
        simp

/-- C4: for every valid key and every input, the source's `evaluate`
computes exactly the spec's chaining: XOR-encrypt once per complete
16-byte chunk from the all-zero accumulator; a partial chunk of `1..15`
bytes is XORed into the low positions with `0x80` XORed at the index equal
to its length followed by exactly one final encryption; an exact nonzero
multiple of 16 appends no padding block; the result is the final
accumulator. -/
theorem prf_chaining_matches_spec (key input : List Nat)
    (h : key.length = 16 ∨ key.length = 24 ∨ key.length = 32) :
    ∃ ctx : List Nat × Nat, key_expansion key = some ctx ∧
      PRF_evaluate key input = some (prf_chain_spec (aes_encrypt ctx.1 ctx.2) input) := by
  have hloop := prf_cbc_loop_eq_chain
  rcases h with h | h | h
  · have hk : key_expansion key = some (aes_key_schedule key 10, 10) := by
      simp [key_expansion, h]
    refine ⟨(aes_key_schedule key 10, 10), hk, ?_⟩
    rw [PRF_evaluate, hk]
    exact congrArg some (hloop _ input.length input _ le_rfl)
  · have hk : key_expansion key = some (aes_key_schedule key 12, 12) := by
      simp [key_expansion, h]
    refine ⟨(aes_key_schedule key 12, 12), hk, ?_⟩
    rw [PRF_evaluate, hk]
    exact congrArg some (hloop _ input.length input _ le_rfl)
  · have hk : key_expansion key = some (aes_key_schedule key 14, 14) := by
      simp [key_expansion, h]
    refine ⟨(aes_key_schedule key 14, 14), hk, ?_⟩
    rw [PRF_evaluate, hk]
    exact congrArg some (hloop _ input.length input _ le_rfl)

/-- Witness for `prf_chaining_matches_spec`: a 16-byte key and a 21-byte
input (one complete chunk plus a 5-byte partial chunk). -/
theorem prf_chaining_matches_spec_witness :
    ((List.replicate 16 0x30 : List Nat).length = 16 ∨
      (List.replicate 16 0x30 : List Nat).length = 24 ∨
      (List.replicate 16 0x30 : List Nat).length = 32) ∧
    ∃ ctx : List Nat × Nat,
      key_expansion (List.replicate 16 0x30) = some ctx ∧
        PRF_evaluate (List.replicate 16 0x30) (List.replicate 21 0x61) =
          some (prf_chain_spec (aes_encrypt ctx.1 ctx.2) (List.replicate 21 0x61)) :=
  ⟨by decide,
    prf_chaining_matches_spec (List.replicate 16 0x30) (List.replicate 21 0x61)
      (by decide)⟩

/-- C2 counterexample: with the all-zero 16-byte key of Scenario C, the
source's `evaluate` on the empty input performs no encryption at all and
returns the all-zero block — not the encryption of `0x80 00 ... 00`. -/
theorem prf_empty_input_not_padded :
    PRF_evaluate (List.replicate 16 0) [] = some (List.replicate 16 0) ∧
      key_expansion (List.replicate 16 0) =
        some (aes_key_schedule (List.replicate 16 0) 10, 10) ∧
      PRF_evaluate (List.replicate 16 0) [] ≠
        some (aes_encrypt (aes_key_schedule (List.replicate 16 0) 10) 10
          (0x80 :: List.replicate 15 0)) :=
  ⟨by decide, by decide, by decide⟩

/-- C2 (amended): for every valid 16-, 24- or 32-byte key, `evaluate` on
the empty input processes no block at all — no padding block is formed and
the block cipher is never invoked — and returns the all-zero 16-byte
accumulator unchanged. -/
theorem prf_empty_input_returns_zero_block (key : List Nat)
    (h : key.length = 16 ∨ key.length = 24 ∨ key.length = 32) :
    PRF_evaluate key [] = some (List.replicate 16 0) := by
  rcases h with h | h | h <;>
    simp [PRF_evaluate, key_expansion, h, prf_cbc_loop]

/-- Witness for `prf_empty_input_returns_zero_block` with a 24-byte key. -/
theorem prf_empty_input_returns_zero_block_witness :
    ((List.replicate 24 0x41 : List Nat).length = 16 ∨
      (List.replicate 24 0x41 : List Nat).length = 24 ∨
      (List.replicate 24 0x41 : List Nat).length = 32) ∧
    PRF_evaluate (List.replicate 24 0x41) [] = some (List.replicate 16 0) :=
  ⟨by decide, prf_empty_input_returns_zero_block (List.replicate 24 0x41) (by decide)⟩

/-! ## SHA-256 (src/HashTools/SHA256.hpp) and PRF key derivation -/

/-- The SHA-256 round constants `K` (SHA256.hpp lines 165–173), in the
source's eight-per-row layout. -/
def sha_K : List Nat :=
  [0x428a2f98, 0x71374491, 0xb5c0fbcf, 0xe9b5dba5, 0x3956c25b, 0x59f111f1, 0x923f82a4, 0xab1c5ed5] ++
  [0xd807aa98, 0x12835b01, 0x243185be, 0x550c7dc3, 0x72be5d74, 0x80deb1fe, 0x9bdc06a7, 0xc19bf174] ++
  [0xe49b69c1, 0xefbe4786, 0x0fc19dc6, 0x240ca1cc, 0x2de92c6f, 0x4a7484aa, 0x5cb0a9dc, 0x76f988da] ++
  [0x983e5152, 0xa831c66d, 0xb00327c8, 0xbf597fc7, 0xc6e00bf3, 0xd5a79147, 0x06ca6351, 0x14292967] ++
  [0x27b70a85, 0x2e1b2138, 0x4d2c6dfc, 0x53380d13, 0x650a7354, 0x766a0abb, 0x81c2c92e, 0x92722c85] ++
  [0xa2bfe8a1, 0xa81a664b, 0xc24b8b70, 0xc76c51a3, 0xd192e819, 0xd6990624, 0xf40e3585, 0x106aa070] ++
  [0x19a4c116, 0x1e376c08, 0x2748774c, 0x34b0bcb5, 0x391c0cb3, 0x4ed8aa4a, 0x5b9cca4f, 0x682e6ff3] ++
  [0x748f82ee, 0x78a5636f, 0x84c87814, 0x8cc70208, 0x90befffa, 0xa4506ceb, 0xbef9a3f7, 0xc67178f2]

/-- The SHA-256 initial state (SHA256.hpp lines 42–44). -/
def sha_H0 : List Nat :=
  [0x6a09e667, 0xbb67ae85, 0x3c6ef372, 0xa54ff53a,
   0x510e527f, 0x9b05688c, 0x1f83d9ab, 0x5be0cd19]

/-- `rotr` (SHA256.hpp lines 182–185): 32-bit rotate right. -/
def rotr (x n : Nat) : Nat := ((x >>> n) ||| (x <<< (32 - n))) % 2 ^ 32

/-- `choose` (SHA256.hpp lines 191–194); `~e` on `uint32_t` is
`e ^^^ 0xFFFFFFFF`. -/
def sha_choose (e f g : Nat) : Nat := (e &&& f) ^^^ ((e ^^^ 0xFFFFFFFF) &&& g)

/-- `majority` (SHA256.hpp lines 200–203). -/
def sha_majority (a b c : Nat) : Nat := (a &&& (b ||| c)) ||| (b &&& c)

/-- `sig0` (SHA256.hpp lines 209–212). -/
def sig0 (x : Nat) : Nat := rotr x 7 ^^^ rotr x 18 ^^^ (x >>> 3)

/-- `sig1` (SHA256.hpp lines 218–221). -/
def sig1 (x : Nat) : Nat := rotr x 17 ^^^ rotr x 19 ^^^ (x >>> 10)

/-- Steps 1–2 of `transform` (SHA256.hpp lines 233–245): pack the 64 block
bytes into 16 big-endian words, then extend to 64 words with `uint32_t`
(wrapping) additions. -/
def sha_schedule (block : List Nat) : List Nat :=
  let m16 := (List.range 16).map (fun i =>
    (block.getD (4 * i) 0 <<< 24) ||| (block.getD (4 * i + 1) 0 <<< 16) |||
      (block.getD (4 * i + 2) 0 <<< 8) ||| block.getD (4 * i + 3) 0)
  (List.range 48).foldl (fun m k =>
    m ++ [(sig1 (m.getD (k + 14) 0) + m.getD (k + 9) 0 + sig0 (m.getD (k + 1) 0)
      + m.getD k 0) % 2 ^ 32]) m16

/-- One iteration of the 64-round compression loop of `transform`
(SHA256.hpp lines 251–268), on the eight-word working state. -/
def sha_round (m : List Nat) (st : List Nat) (i : Nat) : List Nat :=
  let a := st.getD 0 0
  let b := st.getD 1 0
  let c := st.getD 2 0
  let d := st.getD 3 0
  let e := st.getD 4 0
  let f := st.getD 5 0
  let g := st.getD 6 0
  let hh := st.getD 7 0
  let maj := sha_majority a b c
  let xorA := rotr a 2 ^^^ rotr a 13 ^^^ rotr a 22
  let ch := sha_choose e f g
  let xorE := rotr e 6 ^^^ rotr e 11 ^^^ rotr e 25
  let sum := (m.getD i 0 + sha_K.getD i 0 + hh + ch + xorE) % 2 ^ 32
  [(xorA + maj + sum) % 2 ^ 32, a, b, c, (d + sum) % 2 ^ 32, e, f, g]

/-- `transform` (SHA256.hpp lines 227–275): schedule, 64 compression
rounds, then accumulate into the incoming state with wrapping addition. -/
def transform (state block : List Nat) : List Nat :=
  let m := sha_schedule block
  let st := (List.range 64).foldl (sha_round m) state
  (List.range 8).map (fun i => (state.getD i 0 + st.getD i 0) % 2 ^ 32)

/-- The per-64-byte-block processing of `input` (SHA256.hpp lines 54–68),
with fuel (`sha256_bytes` passes the message length, which dominates the
`length / 64` block count).  Returns the state after all complete blocks
together with the unprocessed remainder (the source's `m_data`/`m_blocklen`
buffer). -/
def sha_blocks_loop : Nat → List Nat → List Nat → List Nat × List Nat
  | 0, state, msg => (state, msg)
  | fuel + 1, state, msg =>
    if 64 ≤ msg.length then
      sha_blocks_loop fuel (transform state (msg.take 64)) (msg.drop 64)
    else (state, msg)

/-- The big-endian 8-byte encoding of the total bit length, as stored into
`m_data[56..63]` (SHA256.hpp lines 303–310). -/
def sha_len_bytes (bitlen : Nat) : List Nat :=
  (List.range 8).map (fun i => bitlen / 2 ^ (8 * (7 - i)) % 256)

/-- `pad` (SHA256.hpp lines 281–313): append `0x80`, zero-fill, and place
the bit length; when the remainder occupies 56 or more bytes an extra
block is processed first.  `bitlen` is the total message bit count
(`m_bitlen + m_blocklen * 8` in the source). -/
def sha_pad (state rest : List Nat) (bitlen : Nat) : List Nat :=
  if rest.length < 56 then
    transform state
      (rest ++ [0x80] ++ List.replicate (55 - rest.length) 0 ++ sha_len_bytes bitlen)
  else
    transform
      (transform state (rest ++ [0x80] ++ List.replicate (63 - rest.length) 0))
      (List.replicate 56 0 ++ sha_len_bytes bitlen)

/-- `revert` (SHA256.hpp lines 319–328): serialise the eight state words
big-endian into 32 bytes, `hash[i + 4*j]` taking byte `i` of word `j`. -/
def revert (state : List Nat) : List Nat :=
  (List.range 32).map (fun k => state.getD (k / 4) 0 / 2 ^ (24 - 8 * (k % 4)) % 256)

/-- The full hash of a byte sequence: `input(msg)` followed by `digest()`
(SHA256.hpp lines 54–68 and 84–90).  The source counts `512` bits per
processed block plus `m_blocklen * 8` at padding time, which totals
`msg.length * 8`. -/
def sha256_bytes (msg : List Nat) : List Nat :=
  let pr := sha_blocks_loop msg.length sha_H0 msg
  revert (sha_pad pr.1 pr.2 (msg.length * 8))

/-- The ASCII codes of the lookup string `"0123456789abcdef"` used by
`toString_32` (SHA256.hpp line 140). -/
def hex_chars : List Nat :=
  [48, 49, 50, 51, 52, 53, 54, 55, 56, 57, 97, 98, 99, 100, 101, 102]

/-- `SHA256::toString_32` (SHA256.hpp lines 136–152): one ASCII character
per digest byte, indexed by `(byte >> 4) & 0x0F`. -/
def toString_32 (digest : List Nat) : List Nat :=
  digest.map (fun byte => hex_chars.getD ((byte >>> 4) &&& 0x0F) 0)

/-- The digits of `std::to_string(n)` for a non-negative value, as ASCII
codes, with fuel (`decimal_ascii` passes `n + 1`, which dominates the digit
count). -/
def decimal_digits : Nat → Nat → List Nat
  | 0, _ => []
  | fuel + 1, n =>
    if n < 10 then [48 + n] else decimal_digits fuel (n / 10) ++ [48 + n % 10]

/-- `std::to_string(secret)` for the non-negative shared secret. -/
def decimal_ascii (n : Nat) : List Nat := decimal_digits (n + 1) n

/-- The PRF key derivation used identically by both roles
(DH_Receiver.hpp lines 209–218, DH_Sender.hpp lines 225–234):
`sha256.input(std::to_string(shared_secret)); prf_key = sha256.output(32)`,
where `output(32)` returns `toString_32(digest)`. -/
def prf_key_of_secret (secret : Nat) : List Nat :=
  toString_32 (sha256_bytes (decimal_ascii secret))

/-- Modelled from the spec (§4.3 key derivation): keep only the upper 4
bits of a digest byte and map that nibble to one lowercase ASCII hex
character. -/
def hex_ascii_of_nibble (n : Nat) : Nat :=
  if n < 10 then 48 + n else 97 + (n - 10)

theorem sha256_bytes_length (msg : List Nat) : (sha256_bytes msg).length = 32 := by
  simp [sha256_bytes, revert]

theorem sha256_bytes_lt (msg : List Nat) :
    ∀ b ∈ sha256_bytes msg, b < 256 := by
  intro b hb
  rw [sha256_bytes] at hb
  simp only [revert, List.mem_map, List.mem_range] at hb
  obtain ⟨k, -, rfl⟩ := hb
  exact Nat.mod_lt _ (by omega)

theorem hex_lookup_eq_nibble_map (b : Nat) (hb : b < 256) :
    hex_chars.getD ((b >>> 4) &&& 0x0F) 0 = hex_ascii_of_nibble (b / 16) := by
  have hshift : b >>> 4 = b / 16 := Nat.shiftRight_eq_div_pow b 4
  have hb16 : b / 16 < 16 := by omega
  rw [hshift]
  revert hb16
  generalize b / 16 = n
  intro hn
  interval_cases n <;> decide

/-- C5: the cipher key derived from a shared secret is the 32-character
ASCII string obtained by mapping the upper 4 bits of each SHA-256 digest
byte (of the secret's decimal string) to one lowercase hex character — and
it is not the raw 32-byte digest itself (shown concretely at the secret
`2`). -/
theorem prf_key_is_lossy_upper_nibble_hex :
    (∀ secret : Nat,
      prf_key_of_secret secret =
        (sha256_bytes (decimal_ascii secret)).map
          (fun b => hex_ascii_of_nibble (b / 16)) ∧
      (prf_key_of_secret secret).length = 32) ∧
    prf_key_of_secret 2 ≠ sha256_bytes (decimal_ascii 2) := by
  refine ⟨fun secret => ⟨?_, ?_⟩, by decide⟩
  · rw [prf_key_of_secret, toString_32]
    exact List.map_congr_left
      (fun b hb => hex_lookup_eq_nibble_map b (sha256_bytes_lt _ b hb))
  · simp [prf_key_of_secret, toString_32, sha256_bytes_length]

/-! ## Array transport: byte order and framing (src/SocketTools) -/

/-- The `n` bytes of `x` in little-endian memory order (an x86 host's
layout of a `uint64_t` when `n = 8`). -/
def bytes_le : Nat → Nat → List Nat
  | 0, _ => []
  | n + 1, x => x % 256 :: bytes_le n (x / 256)

/-- The value stored by a little-endian byte list. -/
def of_bytes_le (l : List Nat) : Nat := l.foldr (fun b acc => b + 256 * acc) 0

/-- `custom_htonll` (Client_Sender.hpp lines 24–47) on a little-endian
host: `net_bytes[7 - i] = host_bytes[i]`, i.e. the returned value's
little-endian bytes are the argument's little-endian bytes reversed. -/
def custom_htonll (x : Nat) : Nat := of_bytes_le ((bytes_le 8 x).reverse)

/-- `custom_ntohll` (Server_Receiver.hpp lines 23–46) on a little-endian
host: the same byte reversal as `custom_htonll`. -/
def custom_ntohll (x : Nat) : Nat := of_bytes_le ((bytes_le 8 x).reverse)

/-- The ASCII codes of the end flag string `"ARRAY_FINISHED"`
(Client_Sender.hpp line 196, Server_Receiver.hpp line 265):
`A R R A Y _ F I N I S H E D` — 14 characters, even though nearby comments
speak of 16 bytes. -/
def finish_flag : List Nat :=
  [65, 82, 82, 65, 89, 95, 70, 73, 78, 73, 83, 72, 69, 68]

/-- The byte stream produced by `Sender::send_array`
(Client_Sender.hpp lines 96–135 and 194–208): the 8 memory bytes of
`custom_htonll(array_len)`, then each 8-byte element in host (little-endian)
memory order, then the end flag (sent with `strlen`, 14 bytes). -/
def sent_stream (elems : List Nat) : List Nat :=
  bytes_le 8 (custom_htonll elems.length) ++
    (elems.map (bytes_le 8)).flatten ++ finish_flag

/-- The sender's `total_sent_bytes_` after a successful `send_array` with
no partial sends: 8 length bytes + `count * 8` payload bytes + the flag. -/
def sender_total_bytes (elems : List Nat) : Nat :=
  8 + elems.length * 8 + finish_flag.length

/-- The receiver's reassembly of `data_len` 8-byte elements from the
payload bytes (the `memcpy` into the typed vector,
Server_Receiver.hpp lines 152–154). -/
def chunk_elems : Nat → List Nat → List Nat
  | 0, _ => []
  | n + 1, bytes => of_bytes_le (bytes.take 8) :: chunk_elems n (bytes.drop 8)

/-- The data path of `Receiver::run` (Server_Receiver.hpp lines 97–158,
262–285, 348–390) on an incoming byte stream: read the 8-byte prefix,
convert with `custom_ntohll`, reject a declared count of zero, read exactly
`count * 8` payload bytes, reassemble the elements, then require the next
14 bytes to equal the end flag.  Short streams (peer closed) and a flag
mismatch are failures (`none`); on success the elements are returned with
`total_recv_bytes_`. -/
def receive_parse (stream : List Nat) : Option (List Nat × Nat) :=
  if stream.length < 8 then none
  else
    let data_len := custom_ntohll (of_bytes_le (stream.take 8))
    if data_len = 0 then none
    else
      let total_bytes := data_len * 8
      let rest := stream.drop 8
      if rest.length < total_bytes then none
      else
        let elems := chunk_elems data_len (rest.take total_bytes)
        let tl := rest.drop total_bytes
        if 14 ≤ tl.length ∧ tl.take 14 = finish_flag then
          some (elems, 8 + total_bytes + 14)
        else none

/-- C7: sending the 8-byte-element array `[1, 2, 3]` over a loopback
channel delivers exactly `[1, 2, 3]`; the completion marker is the 14-byte
ASCII literal `"ARRAY_FINISHED"` (not 16 bytes); and the transfer byte
count reported on each side is `8 + 3*8 + 14 = 46`. -/
theorem loopback_roundtrip_one_two_three :
    finish_flag.length = 14 ∧
      sender_total_bytes [1, 2, 3] = 46 ∧
      (sent_stream [1, 2, 3]).length = 46 ∧
      receive_parse (sent_stream [1, 2, 3]) = some ([1, 2, 3], 46) :=
  ⟨by decide, by decide, by decide, by decide⟩

theorem bytes_le_length : ∀ n x, (bytes_le n x).length = n := by
  intro n
  induction n with
  | zero => intro x; rfl
  | succ n ih => intro x; simp [bytes_le, ih]

theorem bytes_le_lt : ∀ n x, ∀ b ∈ bytes_le n x, b < 256 := by
  intro n
  induction n with
  | zero => intro x b hb; simp [bytes_le] at hb
  | succ n ih =>
    intro x b hb
    rw [bytes_le] at hb
    rcases List.mem_cons.mp hb with rfl | hb
    · exact Nat.mod_lt _ (by omega)
    · exact ih (x / 256) b hb

theorem of_bytes_le_bytes_le : ∀ n x, x < 256 ^ n →
    of_bytes_le (bytes_le n x) = x := by
  intro n
  induction n with
  | zero =>
    intro x hx
    interval_cases x
    rfl
  | succ n ih =>
    intro x hx
    have hdiv : x / 256 < 256 ^ n := by
      rw [Nat.div_lt_iff_lt_mul (by omega)]
      calc x < 256 ^ (n + 1) := hx
        _ = 256 ^ n * 256 := by rw [pow_succ]
    rw [bytes_le, of_bytes_le, List.foldr_cons, ← of_bytes_le, ih (x / 256) hdiv]
    omega

theorem bytes_le_of_bytes_le : ∀ l : List Nat, (∀ b ∈ l, b < 256) →
    bytes_le l.length (of_bytes_le l) = l := by
  intro l
  induction l with
  | nil => intro _; rfl
  | cons b l ih =>
    intro hlt
    have hb : b < 256 := hlt b (List.mem_cons_self b l)
    have hval : of_bytes_le (b :: l) = b + 256 * of_bytes_le l := by
      rw [of_bytes_le, List.foldr_cons, ← of_bytes_le]
    rw [List.length_cons, bytes_le, hval]
    have hmod : (b + 256 * of_bytes_le l) % 256 = b := by omega
    have hdiv : (b + 256 * of_bytes_le l) / 256 = of_bytes_le l := by omega
    rw [hmod, hdiv, ih (fun c hc => hlt c (List.mem_cons_of_mem b hc))]

/-- C9: the wire byte-order conversions round-trip on every 64-bit value,
and on a little-endian host `custom_htonll` is exactly the byte reversal
of its argument (so the 8-byte count prefix is big-endian on the wire). -/
theorem custom_htonll_roundtrip (x : Nat) (hx : x < 2 ^ 64) :
    custom_ntohll (custom_htonll x) = x ∧
      bytes_le 8 (custom_htonll x) = (bytes_le 8 x).reverse := by
  have hrev_len : ((bytes_le 8 x).reverse).length = 8 := by
    rw [List.length_reverse, bytes_le_length]
  have hrev_lt : ∀ b ∈ (bytes_le 8 x).reverse, b < 256 :=
    fun b hb => bytes_le_lt 8 x b (List.mem_reverse.mp hb)
  have h8 := bytes_le_of_bytes_le ((bytes_le 8 x).reverse) hrev_lt
  rw [hrev_len] at h8
  have hkey : bytes_le 8 (custom_htonll x) = (bytes_le 8 x).reverse := by
    rw [custom_htonll]
    exact h8
  refine ⟨?_, hkey⟩
  rw [custom_ntohll, hkey, List.reverse_reverse,
    of_bytes_le_bytes_le 8 x (by norm_num at hx ⊢; omega)]

/-- Witness for `custom_htonll_roundtrip` at `x = 258`. -/
theorem custom_htonll_roundtrip_witness :
    (258 : Nat) < 2 ^ 64 ∧ custom_ntohll (custom_htonll 258) = 258 ∧
      bytes_le 8 (custom_htonll 258) = (bytes_le 8 258).reverse :=
  ⟨by norm_num, (custom_htonll_roundtrip 258 (by norm_num)).1,
    (custom_htonll_roundtrip 258 (by norm_num)).2⟩

/-! ## The responder role `DH_Receiver::run` (src/OPRFTools/DH/DH_Receiver.hpp) -/

/-- The spec's error taxonomy (§7). -/
inductive DHError where
  | networkError
  | protocolError
  | validationError
  | inputError
  | cryptoError
deriving DecidableEq

/-- What a run of the responder produced: the OPRF outputs and which
pieces of key material were ever generated before the run ended. -/
structure ReceiverOutcome where
  outputs : List (List Nat)
  keypair : Option (Nat × Nat)
  sharedSecret : Option Nat
  prfKey : Option (List Nat)
  error : Option DHError
deriving DecidableEq

/-- `DH_Receiver::isValidPrime` (DH_Receiver.hpp lines 27–42): a prime
candidate must exceed 1000 and pass `is_prime`. -/
def isValidPrime (p : Int) : Bool :=
  if p ≤ 1000 then false else is_prime p.toNat

/-- `DH_Receiver::isValidPrimitiveRoot` (DH_Receiver.hpp lines 50–65):
the candidate must lie in `(1, p)` and pass `is_primitive_root`. -/
def isValidPrimitiveRoot (g p : Int) : Bool :=
  if g ≤ 1 ∨ p ≤ g then false else is_primitive_root g.toNat p.toNat

/-- `byteToHexString` (common.h lines 139–148): two lowercase hex
characters per byte. -/
def byteToHexString (b : Nat) : List Nat :=
  [hex_chars.getD (b / 16 % 16) 0, hex_chars.getD (b % 16) 0]

/-- `printSingleOprfResult` (DH_Receiver.hpp lines 87–98): the hex string
collected for one OPRF output. -/
def oprf_hex_output (bytes : List Nat) : List Nat :=
  (bytes.map byteToHexString).flatten

/-- `DH_Receiver::run` (DH_Receiver.hpp lines 126–245), with the received
parameters message supplied as `params`, the random private-exponent draw
supplied as `priv`, and the network send assumed successful.  Every
`throw` site becomes an early return labelled with the spec's error
taxonomy (§7); the `catch` block's empty output vector is the `outputs`
field. -/
def dh_receiver_run (params : List Int) (priv : Nat)
    (datasets : List (List Nat)) : ReceiverOutcome :=
  if datasets.isEmpty = true then ⟨[], none, none, none, some .inputError⟩
  else if ¬ params.length = 3 then ⟨[], none, none, none, some .protocolError⟩
  else
    let p := params.getD 0 0
    let g := params.getD 1 0
    let pub := params.getD 2 0
    if isValidPrime p = false then ⟨[], none, none, none, some .validationError⟩
    else if isValidPrimitiveRoot g p = false then
      ⟨[], none, none, none, some .validationError⟩
    else if pub ≤ 1 ∨ p ≤ pub then ⟨[], none, none, none, some .validationError⟩
    else
      let pn := p.toNat
      let public_key_receiver := generate_public_key priv g.toNat pn
      let shared_secret := compute_shared_secret pub.toNat priv pn
      if shared_secret ≤ 1 then
        ⟨[], some (priv, public_key_receiver), none, none, some .validationError⟩
      else
        let prf_key := prf_key_of_secret shared_secret
        if ¬ prf_key.length = 32 then
          ⟨[], some (priv, public_key_receiver), some shared_secret, none,
            some .cryptoError⟩
        else
          ⟨datasets.map (fun d => oprf_hex_output ((PRF_evaluate prf_key d).getD [])),
            some (priv, public_key_receiver), some shared_secret, some prf_key, none⟩

/-- C8: a parameters message whose first element satisfies `p ≤ 1000` is
rejected by the responder as a validation failure (prime too small): no
key pair, no shared secret and no PRF key are generated, and the returned
output vector is empty. -/
theorem receiver_rejects_small_prime (p g pub : Int) (priv : Nat)
    (datasets : List (List Nat)) (hp : p ≤ 1000) (hd : datasets ≠ []) :
    dh_receiver_run [p, g, pub] priv datasets =
      ⟨[], none, none, none, some .validationError⟩ := by
  have hvp : isValidPrime p = false := by rw [isValidPrime, if_pos hp]
  rw [dh_receiver_run,
    if_neg (by simp [List.isEmpty_iff, hd]),
    if_neg (by simp)]
  simp only [List.getD]
  rw [if_pos ?hcond]
  case hcond =>
    show isValidPrime ([p, g, pub].getD 0 0) = false
    simpa using hvp

/-- Witness for `receiver_rejects_small_prime`: `p = 997 ≤ 1000` with a
one-item dataset. -/
theorem receiver_rejects_small_prime_witness :
    (997 : Int) ≤ 1000 ∧ ([[49]] : List (List Nat)) ≠ [] ∧
      dh_receiver_run [(997 : Int), 5, 3] 7 [[49]] =
        ⟨[], none, none, none, some .validationError⟩ :=
  ⟨by decide, by decide,
    receiver_rejects_small_prime 997 5 3 7 [[49]] (by decide) (by decide)⟩

end PrivacyMagic
